import Mathlib

/-!
Verification of the A2C training core (tonic/torch/agents/a2c.py) against its
natural-language specification.

The agent orchestration (`A2C.step`, `A2C.test_step`, `A2C.update`,
`A2C._step`, `A2C._test_step`, `A2C._evaluate`, `A2C._update`, and the
`default_*` configuration constructors) is embedded from the source file.
The collaborators the source imports from elsewhere in the repository
(the `Segment` trajectory buffer, the normalizers, the updater objects)
are modelled from the specification's contracts, as marked on each
definition.  Scalar data is embedded as `ℚ`; tensors over a segment as
`List ℚ`; Python exceptions as `Except String`; the calls the agent makes
on its collaborators are additionally reified as an `Event` trace so that
ordering claims can be stated.
-/

/-- One stored environment transition, with the field names `Segment.store`
is called with in `A2C.update`. -/
structure Transition where
  observations : ℚ
  actions : ℚ
  next_observations : ℚ
  rewards : ℚ
  resets : Bool
  terminations : Bool
  log_probs : ℚ
deriving DecidableEq

instance : Inhabited Transition := ⟨⟨0, 0, 0, 0, false, false, 0⟩⟩

/-- The per-timestep data `compute_returns` consumes: the stored reward,
reset and termination flags together with the critic values supplied for
the observation and the next observation. -/
structure StepData where
  reward : ℚ
  reset : Bool
  termination : Bool
  value : ℚ
  next_value : ℚ
deriving DecidableEq

instance : Inhabited StepData := ⟨⟨0, false, false, 0, 0⟩⟩

/-- 0/1 indicator of a boolean flag, as the numeric arrays treat the stored
`resets`/`terminations` flags. -/
def ind (b : Bool) : ℚ := if b then 1 else 0

/-- Modelled from the spec: the TD residual
`δ_t = reward_t + γ·(1−termination_t)·next_value_t − value_t`
(terminations zero the bootstrap, resets do not). -/
def tdResidual (γ : ℚ) (s : StepData) : ℚ :=
  s.reward + γ * (1 - ind s.termination) * s.next_value - s.value

/-- Modelled from the spec: one iteration of the backward loop of the
generalized-advantage computation.  The accumulator carries
`(A_{t+1}, reset_{t+1}, advantages already emitted for later timesteps)`;
the new advantage is `δ_t + γ·λ·(1−reset_{t+1})·A_{t+1}`. -/
def gaeStep (γ lam : ℚ) (s : StepData) (acc : ℚ × Bool × List ℚ) : ℚ × Bool × List ℚ :=
  (tdResidual γ s + γ * lam * (1 - ind acc.2.1) * acc.1,
   s.reset,
   (tdResidual γ s + γ * lam * (1 - ind acc.2.1) * acc.1) :: acc.2.2)

/-- Modelled from the spec: the advantages of a segment, computed by an
explicit reverse loop carrying one scalar accumulator, seeded with
`A_N = 0` (and no reset flag beyond the end). -/
def computeAdvantages (γ lam : ℚ) (steps : List StepData) : List ℚ :=
  (steps.foldr (gaeStep γ lam) (0, false, [])).2.2

/-- Zip the stored transitions with the critic values and next-values into
the per-timestep records the advantage computation walks over. -/
def zipSteps : List Transition → List ℚ → List ℚ → List StepData
  | t :: ts, v :: vs, w :: ws =>
      ⟨t.rewards, t.resets, t.terminations, v, w⟩ :: zipSteps ts vs ws
  | _, _, _ => []

/-- Modelled from the spec: the fixed-capacity trajectory buffer
(`tonic.replays.Segment`, constructed by `default_replay` in the source
with its configuration fields).  `data` is the stored segment in storage
order, so the write cursor is `data.length`; `advantages` and `returns`
are the derived parallel arrays; `perms` models the seeded shuffling
state of `get` as a stream of index permutations, an absent entry
standing for the identity permutation. -/
structure Segment where
  size : ℕ
  batch_iterations : ℕ
  batch_size : Option ℕ
  discount_factor : ℚ
  trace_decay : ℚ
  data : List Transition
  advantages : List ℚ
  returns : List ℚ
  perms : List (List ℕ)
deriving DecidableEq

/-- Modelled from the spec: `ready() -> bool`, true iff the write cursor
has reached the capacity. -/
def Segment.ready (seg : Segment) : Bool := seg.data.length == seg.size

/-- Modelled from the spec: `store` appends one transition at the cursor;
it fails (a fatal programmer error) when the buffer is already full and
unreset. -/
def Segment.store (seg : Segment) (t : Transition) : Except String Segment :=
  if seg.data.length < seg.size then
    .ok { seg with data := seg.data ++ [t] }
  else
    .error "Segment.store called on a full, unreset segment"

/-- `get_full('observations', ...)`: the observations of all stored
transitions, in storage order. -/
def Segment.full_observations (seg : Segment) : List ℚ :=
  seg.data.map Transition.observations

/-- `get_full('next_observations', ...)` component. -/
def Segment.full_next_observations (seg : Segment) : List ℚ :=
  seg.data.map Transition.next_observations

/-- `get_full('actions', ...)` component. -/
def Segment.full_actions (seg : Segment) : List ℚ :=
  seg.data.map Transition.actions

/-- `get_full('log_probs', ...)` component. -/
def Segment.full_log_probs (seg : Segment) : List ℚ :=
  seg.data.map Transition.log_probs

/-- Modelled from the spec: `compute_returns(values, next_values)` fills the
`advantages` array by the backward generalized-advantage loop and sets
`returns[t] = advantages[t] + values[t]`. -/
def Segment.compute_returns (seg : Segment) (values next_values : List ℚ) : Segment :=
  { seg with
    advantages :=
      computeAdvantages seg.discount_factor seg.trace_decay
        (zipSteps seg.data values next_values),
    returns :=
      List.zipWith (· + ·)
        (computeAdvantages seg.discount_factor seg.trace_decay
          (zipSteps seg.data values next_values)) values }

/-- Modelled from the spec: the batch size `get` uses, the full segment
when `batch_size` is unset. -/
def Segment.effective_batch_size (seg : Segment) : ℕ :=
  seg.batch_size.getD seg.size

/-- Modelled from the spec: the indices of the `i`-th mini-batch `get`
yields: the first `effective_batch_size` entries of that iteration's
shuffled index permutation. -/
def Segment.batch_indices (seg : Segment) (i : ℕ) : List ℕ :=
  (seg.perms.getD i (List.range seg.size)).take seg.effective_batch_size

/-- Modelled from the spec: `get('observations', 'returns')`, the finite
sequence of `batch_iterations` mini-batches fed to the critic updater. -/
def Segment.get (seg : Segment) : List (List ℚ × List ℚ) :=
  (List.range seg.batch_iterations).map fun i =>
    ((seg.batch_indices i).map fun j => (seg.data.getD j default).observations,
     (seg.batch_indices i).map fun j => seg.returns.getD j 0)

/-- Modelled from the spec: a running-statistics normalizer, an external
collaborator with `record` (accumulate raw values) and `update` (flush the
accumulated values into the running estimate). -/
structure Normalizer where
  pending : List ℚ
  stats : List ℚ
deriving DecidableEq

/-- Modelled from the spec: `record` accumulates a raw value for the next
flush. -/
def Normalizer.record (n : Normalizer) (v : ℚ) : Normalizer :=
  { n with pending := n.pending ++ [v] }

/-- Modelled from the spec: `update` flushes the accumulated values into
the running estimate. -/
def Normalizer.update (n : Normalizer) : Normalizer :=
  { pending := [], stats := n.stats ++ n.pending }

/-- The distribution object the actor model returns for one observation.
`hasattr(distributions, 'sample_with_log_prob')` is embedded as the
`Option`-valued field `sample_with_log_prob`: `some` means the attribute
exists (a combined sample returning the action and its per-dimension
log-probabilities), `none` means only the separate `sample`/`log_prob`
operations exist.  A log-probability output is a list over the last
(action-dimension) axis. -/
structure Distribution where
  sample : ℚ
  log_prob : ℚ → List ℚ
  sample_with_log_prob : Option (ℚ × List ℚ)

/-- The model: actor and critic callables plus the two optional
normalizers (`observation_normalizer`, `return_normalizer`), which are
optional capabilities. -/
structure Model where
  actor : ℚ → Distribution
  critic : ℚ → ℚ
  observation_normalizer : Option Normalizer
  return_normalizer : Option Normalizer

/-- The values `A2C.step` caches for the next `update` call
(`last_observations`, `last_actions`, `last_log_probs`). -/
structure LastStep where
  observations : ℚ
  actions : ℚ
  log_probs : ℚ
deriving DecidableEq

/-- The actor updater's configuration: `StochasticPolicyGradient` with its
optimizer's learning rate. -/
structure StochasticPolicyGradient where
  lr : ℚ
deriving DecidableEq

/-- The critic updater's configuration: `VRegression` with its optimizer's
learning rate. -/
structure VRegression where
  lr : ℚ
deriving DecidableEq

/-- The A2C agent object.  `last = none` embeds the state in which the
`last_observations`/`last_actions`/`last_probs` attributes have never
been assigned (no `step` call yet), so that reading them raises. -/
structure A2C where
  model : Model
  replay : Segment
  actor_updater : StochasticPolicyGradient
  critic_updater : VRegression
  last : Option LastStep

/-- A stand-in default distribution for `default_model` (the concrete
network heads are external collaborators). -/
def default_distribution : Distribution :=
  { sample := 0, log_prob := fun _ => [0], sample_with_log_prob := none }

/-- `default_model()`: an actor-critic model with an observation
normalizer configured and no return normalizer (the network architecture
itself is an external collaborator and is stubbed). -/
def default_model : Model :=
  { actor := fun _ => default_distribution
    critic := fun _ => 0
    observation_normalizer := some ⟨[], []⟩
    return_normalizer := none }

/-- `default_replay()`: `Segment(size=4096, batch_iterations=80,
batch_size=None, discount_factor=0.98, trace_decay=0.97)`. -/
def default_replay : Segment :=
  { size := 4096, batch_iterations := 80, batch_size := none
    discount_factor := 98/100, trace_decay := 97/100
    data := [], advantages := [], returns := [], perms := [] }

/-- `default_actor_updater()`: `StochasticPolicyGradient` with an Adam
optimizer at learning rate `3e-4`. -/
def default_actor_updater : StochasticPolicyGradient := { lr := 3/10000 }

/-- `default_critic_updater()`: `VRegression` with an Adam optimizer at
learning rate `1e-3`. -/
def default_critic_updater : VRegression := { lr := 1/1000 }

/-- `A2C.__init__(model=None, replay=None, actor_updater=None,
critic_updater=None)`: each absent argument is replaced by its default
constructor; no `last_*` attribute exists yet. -/
def A2C.new (model : Option Model) (replay : Option Segment)
    (actor_updater : Option StochasticPolicyGradient)
    (critic_updater : Option VRegression) : A2C :=
  { model := model.getD default_model
    replay := replay.getD default_replay
    actor_updater := actor_updater.getD default_actor_updater
    critic_updater := critic_updater.getD default_critic_updater
    last := none }

/-- The calls the agent makes on its collaborators, reified so that
ordering claims can be stated over one `update` call. -/
inductive Event where
  | store (t : Transition)
  | recordObs (v : ℚ)
  | recordRet (v : ℚ)
  | evalCritic (observations next_observations : List ℚ)
  | computeReturns (values next_values : List ℚ)
  | actorUpdate (observations actions advantages log_probs : List ℚ)
  | criticUpdate (observations returns : List ℚ)
  | obsNormUpdate
  | retNormUpdate
deriving DecidableEq

/-- Whether an event is the buffer-store call. -/
def Event.isStore : Event → Bool
  | .store _ => true
  | _ => false

/-- Whether an event belongs to a learning pass (`A2C._update`), as
opposed to the per-timestep store/record work of `A2C.update`. -/
def Event.isLearn : Event → Bool
  | .store _ => false
  | .recordObs _ => false
  | .recordRet _ => false
  | _ => true

/-- `A2C._step`: run the actor on the observations; when the distribution
has the combined `sample_with_log_prob` operation use it, otherwise
sample and query `log_prob` separately; then sum the log-probabilities
over the last (action-dimension) axis. -/
def A2C._step (model : Model) (observations : ℚ) : ℚ × ℚ :=
  (fun p : ℚ × List ℚ => (p.1, p.2.sum))
    (match (model.actor observations).sample_with_log_prob with
     | some al => al
     | none =>
        ((model.actor observations).sample,
         (model.actor observations).log_prob (model.actor observations).sample))

/-- `A2C.step`: sample actions and log-probabilities for training and keep
`last_observations`, `last_actions`, `last_log_probs` for the next
`update` call. -/
def A2C.step (agent : A2C) (observations : ℚ) : ℚ × A2C :=
  ((A2C._step agent.model observations).1,
   { agent with
     last := some
       ⟨observations,
        (A2C._step agent.model observations).1,
        (A2C._step agent.model observations).2⟩ })

/-- `A2C._test_step`: sample an action from the actor's distribution. -/
def A2C._test_step (model : Model) (observations : ℚ) : ℚ :=
  (model.actor observations).sample

/-- `A2C.test_step`: sample actions for testing; nothing is cached and no
log-probability is computed, so the agent is returned unchanged. -/
def A2C.test_step (agent : A2C) (observations : ℚ) : ℚ × A2C :=
  (A2C._test_step agent.model observations, agent)

/-- `A2C._evaluate`: the critic's values of the stored observations and of
the stored next observations (no gradient). -/
def A2C._evaluate (model : Model) (observations next_observations : List ℚ) :
    List ℚ × List ℚ :=
  (observations.map model.critic, next_observations.map model.critic)

/-- The transition `A2C.update` stores: the cached last-step data paired
with the `update` call's arguments. -/
def mkStoredTransition (last : LastStep) (observations rewards : ℚ)
    (resets terminations : Bool) : Transition :=
  { observations := last.observations, actions := last.actions
    next_observations := observations, rewards := rewards, resets := resets
    terminations := terminations, log_probs := last.log_probs }

/-- `A2C._update`, one learning pass: evaluate the critic over the full
stored segment, compute the lambda-returns, update the actor once on the
full segment, update the critic on each mini-batch `get` yields, then
flush each configured normalizer.  The buffer's reset back to an empty
segment (modelled from the spec as a side effect of the pass) clears the
stored data.  Returns the new model, the new replay and the event
trace. -/
def A2C._update (model : Model) (replay : Segment) :
    Model × Segment × List Event :=
  -- Compute the lambda-returns.
  let values := (A2C._evaluate model replay.full_observations
    replay.full_next_observations).1
  let next_values := (A2C._evaluate model replay.full_observations
    replay.full_next_observations).2
  let replay2 := replay.compute_returns values next_values
  -- Update the actor once.
  let actorEvent := Event.actorUpdate replay2.full_observations
    replay2.full_actions replay2.advantages replay2.full_log_probs
  -- Update the critic multiple times.
  let criticEvents := replay2.get.map fun b => Event.criticUpdate b.1 b.2
  -- Update the normalizers.
  let obsStep : Model × List Event :=
    match model.observation_normalizer with
    | some nz =>
        ({ model with observation_normalizer := some nz.update },
         [Event.obsNormUpdate])
    | none => (model, [])
  let retStep : Model × List Event :=
    match obsStep.1.return_normalizer with
    | some nz =>
        ({ obsStep.1 with return_normalizer := some nz.update },
         [Event.retNormUpdate])
    | none => (obsStep.1, [])
  (retStep.1, { replay2 with data := [] },
    Event.evalCritic replay.full_observations replay.full_next_observations ::
    Event.computeReturns values next_values ::
    actorEvent :: (criticEvents ++ obsStep.2 ++ retStep.2))

/-- `A2C.update`: store the last transition in the replay (reading the
cached last-step attributes raises when no `step` preceded), record into
the configured normalizers, then run one learning pass iff the replay is
ready. -/
def A2C.update (agent : A2C) (observations rewards : ℚ)
    (resets terminations : Bool) : Except String (A2C × List Event) :=
  match agent.last with
  | none => .error "AttributeError: last_observations is not set before the first step call"
  | some last =>
    -- Store the last transitions in the replay.
    match agent.replay.store
        (mkStoredTransition last observations rewards resets terminations) with
    | .error e => .error e
    | .ok replay =>
      -- Prepare to update the normalizers.
      let obsRec : Model × List Event :=
        match agent.model.observation_normalizer with
        | some nz =>
            ({ agent.model with
               observation_normalizer := some (nz.record last.observations) },
             [Event.recordObs last.observations])
        | none => (agent.model, [])
      let retRec : Model × List Event :=
        match obsRec.1.return_normalizer with
        | some nz =>
            ({ obsRec.1 with return_normalizer := some (nz.record rewards) },
             [Event.recordRet rewards])
        | none => (obsRec.1, [])
      -- Update the model if the replay is ready.
      if replay.ready then
        let mru := A2C._update retRec.1 replay
        .ok ({ agent with model := mru.1, replay := mru.2.1 },
          Event.store
            (mkStoredTransition last observations rewards resets terminations)
            :: (obsRec.2 ++ retRec.2 ++ mru.2.2))
      else
        .ok ({ agent with model := retRec.1, replay := replay },
          Event.store
            (mkStoredTransition last observations rewards resets terminations)
            :: (obsRec.2 ++ retRec.2))

/-! ## Shared helper lemmas -/

theorem store_ok_data {seg seg' : Segment} {t : Transition}
    (h : seg.store t = .ok seg') : seg'.data = seg.data ++ [t] := by
  unfold Segment.store at h
  split at h
  · simp only [Except.ok.injEq] at h
    subst h
    rfl
  · simp at h

/-! ## Claim theorems -/

/-- C9: A2C constructed with no arguments uses a Segment replay with size
4096, batch_iterations 80, batch_size unset (so the effective batch is
the full segment), discount_factor 0.98 and trace_decay 0.97; its actor
updater's optimizer learning rate is 3e-4 and its critic updater's is
1e-3. -/
theorem a2c_default_configuration :
    (A2C.new none none none none).replay = default_replay ∧
    default_replay.size = 4096 ∧
    default_replay.batch_iterations = 80 ∧
    default_replay.batch_size = none ∧
    default_replay.discount_factor = 98/100 ∧
    default_replay.trace_decay = 97/100 ∧
    default_replay.effective_batch_size = default_replay.size ∧
    (A2C.new none none none none).actor_updater = default_actor_updater ∧
    default_actor_updater.lr = 3/10000 ∧
    (A2C.new none none none none).critic_updater = default_critic_updater ∧
    default_critic_updater.lr = 1/1000 :=
  ⟨rfl, rfl, rfl, rfl, rfl, rfl, rfl, rfl, rfl, rfl, rfl⟩

/-- C8: test_step returns the action sampled from the actor's distribution
for the given observations and changes no agent state: the cache, the
replay buffer and the normalizers are exactly as before, and the result
does not depend on the distribution's log_prob or sample_with_log_prob
operations (no log-probability is computed). -/
theorem a2c_test_step_pure (agent : A2C) (o : ℚ)
    (f : ℚ → ℚ → List ℚ) (g : ℚ → Option (ℚ × List ℚ)) :
    (A2C.test_step agent o).1 = (agent.model.actor o).sample ∧
    (A2C.test_step agent o).2 = agent ∧
    (A2C.test_step
      { agent with model :=
        { agent.model with actor := fun x =>
          { agent.model.actor x with
            log_prob := f x, sample_with_log_prob := g x } } } o).1
      = (A2C.test_step agent o).1 :=
  ⟨rfl, rfl, rfl⟩

/-- C10: a second step call with no intervening update silently overwrites
the cached last-step state (the double-stepped agent is identical to the
agent that only took the second step, so the first step's data is dropped),
the surviving cache comes from the second step, and any subsequent update
behaves exactly as if only the second step had happened. -/
theorem a2c_step_overwrites_last (agent : A2C) (o1 o2 : ℚ) :
    A2C.step (A2C.step agent o1).2 o2 = A2C.step agent o2 ∧
    (A2C.step (A2C.step agent o1).2 o2).2.last =
      some ⟨o2, (A2C._step agent.model o2).1, (A2C._step agent.model o2).2⟩ ∧
    ∀ (o3 r : ℚ) (res term : Bool),
      A2C.update (A2C.step (A2C.step agent o1).2 o2).2 o3 r res term =
        A2C.update (A2C.step agent o2).2 o3 r res term :=
  ⟨rfl, rfl, fun _ _ _ _ => rfl⟩

/-- The error message reading an unset last-step attribute produces. -/
def attrErrorMsg : String :=
  "AttributeError: last_observations is not set before the first step call"

/-- C7: calling update when no step has ever preceded it fails fatally:
it returns the attribute error immediately and never returns a successor
state, so nothing is stored into the buffer. -/
theorem a2c_update_before_step_raises (agent : A2C) (observations rewards : ℚ)
    (resets terminations : Bool) (hlast : agent.last = none) :
    A2C.update agent observations rewards resets terminations =
      .error attrErrorMsg ∧
    ∀ (a : A2C) (tr : List Event),
      A2C.update agent observations rewards resets terminations ≠ .ok (a, tr) := by
  have h : A2C.update agent observations rewards resets terminations =
      .error attrErrorMsg := by
    unfold A2C.update
    rw [hlast]
    rfl
  exact ⟨h, fun a tr hc => by rw [h] at hc; cases hc⟩

/-- Witness for C7 at the freshly constructed agent. -/
theorem a2c_update_before_step_raises_witness :
    ((A2C.new none none none none).last = none) ∧
    (A2C.update (A2C.new none none none none) 0 0 false false =
        .error attrErrorMsg ∧
      ∀ (a : A2C) (tr : List Event),
        A2C.update (A2C.new none none none none) 0 0 false false ≠
          .ok (a, tr)) :=
  ⟨rfl, a2c_update_before_step_raises (A2C.new none none none none) 0 0
    false false rfl⟩

/-- A distribution exposing the combined sample_with_log_prob operation
(whose summed log-probability is 5) besides separate operations (whose
summed log-probability would be 7). -/
def introspectionDistA : Distribution :=
  { sample := 0, log_prob := fun _ => [7], sample_with_log_prob := some (0, [5]) }

/-- A distribution exposing only the separate sample and log_prob
operations (summed log-probability 7). -/
def introspectionDistB : Distribution :=
  { sample := 0, log_prob := fun _ => [7], sample_with_log_prob := none }

/-- One actor model whose distribution object has the combined operation
at observation 0 but not at observation 1. -/
def introspectionModel : Model :=
  { actor := fun o => if o = 0 then introspectionDistA else introspectionDistB
    critic := fun _ => 0
    observation_normalizer := none
    return_normalizer := none }

/-- One constructed agent over that model. -/
def introspectionAgent : A2C :=
  { model := introspectionModel, replay := default_replay
    actor_updater := default_actor_updater
    critic_updater := default_critic_updater, last := none }

/-- C4 counterexample: within one constructed agent, the step call at
observation 0 resolves to the combined sample_with_log_prob operation
(caching log-probability 5) while the step call at observation 1 resolves
to the separate operations (caching 7); the choice is therefore re-made
per step call by introspecting the distribution object, not resolved once
at construction time. -/
theorem a2c_step_introspects_every_call :
    ((A2C.step introspectionAgent 0).2.last = some ⟨0, 0, 5⟩) ∧
    ((A2C.step introspectionAgent 1).2.last = some ⟨1, 0, 7⟩) ∧
    ((introspectionModel.actor 0).sample_with_log_prob = some (0, [5])) ∧
    ((introspectionModel.actor 1).sample_with_log_prob = none) ∧
    ((introspectionModel.actor 0).log_prob 0 = [7]) ∧
    ((introspectionModel.actor 1).log_prob 0 = [7]) := by
  refine ⟨?_, ?_, ?_, ?_, ?_, ?_⟩ <;>
    norm_num [A2C.step, A2C._step, introspectionAgent, introspectionModel,
      introspectionDistA, introspectionDistB]

/-- C4 amended: the choice between the combined sample_with_log_prob
operation and the separate sample/log_prob operations is made afresh on
every _step call by introspecting the distribution object the actor
returns for that call: the result depends only on that distribution (two
calls given equal distribution objects behave identically, whatever the
models and observations), the separate operations are used exactly when
the combined one is absent, and the combined one is used whenever it is
present. -/
theorem a2c_step_branch_resolved_per_call (m1 m2 : Model) (o1 o2 : ℚ)
    (h : m1.actor o1 = m2.actor o2) :
    A2C._step m1 o1 = A2C._step m2 o2 ∧
    ((m1.actor o1).sample_with_log_prob = none →
      A2C._step m1 o1 =
        ((m1.actor o1).sample,
         ((m1.actor o1).log_prob (m1.actor o1).sample).sum)) ∧
    (∀ al : ℚ × List ℚ, (m1.actor o1).sample_with_log_prob = some al →
      A2C._step m1 o1 = (al.1, al.2.sum)) := by
  refine ⟨?_, ?_, ?_⟩
  · unfold A2C._step
    rw [h]
  · intro hn
    unfold A2C._step
    rw [hn]
  · intro al hs
    unfold A2C._step
    rw [hs]

/-- Witness for the amended C4 at two step calls over the default model. -/
theorem a2c_step_branch_resolved_per_call_witness :
    (default_model.actor 0 = default_model.actor 1) ∧
    (A2C._step default_model 0 = A2C._step default_model 1 ∧
     ((default_model.actor 0).sample_with_log_prob = none →
       A2C._step default_model 0 =
         ((default_model.actor 0).sample,
          ((default_model.actor 0).log_prob (default_model.actor 0).sample).sum)) ∧
     (∀ al : ℚ × List ℚ,
       (default_model.actor 0).sample_with_log_prob = some al →
       A2C._step default_model 0 = (al.1, al.2.sum))) :=
  ⟨rfl, a2c_step_branch_resolved_per_call default_model default_model 0 1 rfl⟩

/-! ## The generalized-advantage recursion -/

theorem headD_eq_getD {α : Type} (l : List α) (d : α) : l.headD d = l.getD 0 d := by
  cases l <;> rfl

theorem getD_of_le {α : Type} (l : List α) (d : α) (n : ℕ) (h : l.length ≤ n) :
    l.getD n d = d := by
  simp [List.getD, List.getElem?_eq_none h]

theorem gae_foldr_eq (γ lam : ℚ) (steps : List StepData) :
    steps.foldr (gaeStep γ lam) (0, false, []) =
      ((computeAdvantages γ lam steps).headD 0,
       (steps.headD default).reset,
       computeAdvantages γ lam steps) := by
  induction steps with
  | nil => rfl
  | cons s rest ih =>
      have h2 : computeAdvantages γ lam (s :: rest) =
          (tdResidual γ s +
            γ * lam * (1 - ind ((rest.headD default).reset)) *
              ((computeAdvantages γ lam rest).headD 0)) ::
            computeAdvantages γ lam rest := by
        unfold computeAdvantages
        rw [List.foldr_cons, ih]
        rfl
      rw [List.foldr_cons, ih, h2]
      rfl

theorem computeAdvantages_cons (γ lam : ℚ) (s : StepData) (rest : List StepData) :
    computeAdvantages γ lam (s :: rest) =
      (tdResidual γ s +
        γ * lam * (1 - ind ((rest.headD default).reset)) *
          ((computeAdvantages γ lam rest).headD 0)) ::
        computeAdvantages γ lam rest := by
  unfold computeAdvantages
  rw [List.foldr_cons, gae_foldr_eq]
  rfl

theorem computeAdvantages_length (γ lam : ℚ) (steps : List StepData) :
    (computeAdvantages γ lam steps).length = steps.length := by
  induction steps with
  | nil => rfl
  | cons s rest ih =>
      rw [computeAdvantages_cons]
      simp [ih]

theorem computeAdvantages_getD (γ lam : ℚ) (steps : List StepData) (t : ℕ)
    (ht : t < steps.length) :
    (computeAdvantages γ lam steps).getD t 0 =
      tdResidual γ (steps.getD t default) +
        γ * lam * (1 - ind ((steps.getD (t + 1) default).reset)) *
          ((computeAdvantages γ lam steps).getD (t + 1) 0) := by
  induction steps generalizing t with
  | nil => simp at ht
  | cons s rest ih =>
      rw [computeAdvantages_cons]
      cases t with
      | zero => simp only [List.getD_cons_zero, List.getD_cons_succ, headD_eq_getD]
      | succ t =>
          simp only [List.getD_cons_succ]
          exact ih t (by simpa using ht)

theorem zipSteps_length (data : List Transition) :
    ∀ (values next_values : List ℚ),
    values.length = data.length → next_values.length = data.length →
    (zipSteps data values next_values).length = data.length := by
  induction data with
  | nil =>
      intro v w _ _
      cases v <;> cases w <;> simp [zipSteps]
  | cons t ts ih =>
      intro v w hv hw
      cases v with
      | nil => simp at hv
      | cons a as =>
          cases w with
          | nil => simp at hw
          | cons b bs =>
              have h := ih as bs (by simpa using hv) (by simpa using hw)
              simp [zipSteps, h]

theorem zipSteps_getD (data : List Transition) :
    ∀ (values next_values : List ℚ) (i : ℕ),
    values.length = data.length → next_values.length = data.length →
    i < data.length →
    (zipSteps data values next_values).getD i default =
      ⟨(data.getD i default).rewards, (data.getD i default).resets,
       (data.getD i default).terminations, values.getD i 0,
       next_values.getD i 0⟩ := by
  induction data with
  | nil =>
      intro v w i _ _ hi
      simp at hi
  | cons t ts ih =>
      intro v w i hv hw hi
      cases v with
      | nil => simp at hv
      | cons a as =>
          cases w with
          | nil => simp at hw
          | cons b bs =>
              cases i with
              | zero => simp [zipSteps]
              | succ i =>
                  simp only [zipSteps, List.getD_cons_succ]
                  exact ih as bs i (by simpa using hv) (by simpa using hw)
                    (by simpa using hi)

theorem zipWith_add_getD (a : List ℚ) :
    ∀ (b : List ℚ) (t : ℕ), t < a.length → t < b.length →
    (List.zipWith (· + ·) a b).getD t 0 = a.getD t 0 + b.getD t 0 := by
  induction a with
  | nil =>
      intro b t ha _
      simp at ha
  | cons x xs ih =>
      intro b t _ hb
      cases b with
      | nil => simp at hb
      | cons y ys =>
          cases t with
          | zero => simp
          | succ t =>
              simp only [List.zipWith_cons_cons, List.getD_cons_succ]
              exact ih ys t (by simpa using ‹t + 1 < (x :: xs).length›)
                (by simpa using hb)

/-- C2: compute_returns, given per-timestep critic values and next-values
for a stored segment of length N, fills an advantages array of length N
satisfying, for every t < N,
advantages[t] = reward_t + γ·(1−termination_t)·next_value_t − value_t
                + γ·λ·(1−reset_{t+1})·advantages[t+1]
(with the boundary seeded as A_N = 0, so the trailing term vanishes at
t = N−1), and sets returns[t] = advantages[t] + value_t; a termination at
t zeroes the bootstrap term of the TD residual while a reset at t+1 only
truncates the advantage trace. -/
theorem segment_compute_returns_gae (seg : Segment) (values next_values : List ℚ)
    (t : ℕ) (hv : values.length = seg.data.length)
    (hnv : next_values.length = seg.data.length)
    (ht : t < seg.data.length) :
    (seg.compute_returns values next_values).advantages.length = seg.data.length ∧
    (seg.compute_returns values next_values).advantages.getD t 0 =
      (seg.data.getD t default).rewards
        + seg.discount_factor * (1 - ind (seg.data.getD t default).terminations)
            * next_values.getD t 0
        - values.getD t 0
        + seg.discount_factor * seg.trace_decay
            * (1 - ind (seg.data.getD (t + 1) default).resets)
            * ((seg.compute_returns values next_values).advantages.getD (t + 1) 0) ∧
    (seg.compute_returns values next_values).returns.getD t 0 =
      (seg.compute_returns values next_values).advantages.getD t 0
        + values.getD t 0 := by
  have hsl : (zipSteps seg.data values next_values).length = seg.data.length :=
    zipSteps_length seg.data values next_values hv hnv
  have hadv : (seg.compute_returns values next_values).advantages =
      computeAdvantages seg.discount_factor seg.trace_decay
        (zipSteps seg.data values next_values) := rfl
  have hret : (seg.compute_returns values next_values).returns =
      List.zipWith (· + ·)
        (computeAdvantages seg.discount_factor seg.trace_decay
          (zipSteps seg.data values next_values)) values := rfl
  have hlen : (computeAdvantages seg.discount_factor seg.trace_decay
      (zipSteps seg.data values next_values)).length = seg.data.length := by
    rw [computeAdvantages_length, hsl]
  refine ⟨by rw [hadv, hlen], ?_, ?_⟩
  · rw [hadv]
    rw [computeAdvantages_getD _ _ _ t (by rw [hsl]; exact ht)]
    rw [zipSteps_getD seg.data values next_values t hv hnv ht]
    have hreset : ((zipSteps seg.data values next_values).getD (t + 1) default).reset
        = (seg.data.getD (t + 1) default).resets := by
      by_cases h : t + 1 < seg.data.length
      · rw [zipSteps_getD seg.data values next_values (t + 1) hv hnv h]
      · rw [getD_of_le _ _ _ (by rw [hsl]; omega),
          getD_of_le _ _ _ (by omega)]
        rfl
    rw [hreset]
    rfl
  · rw [hret, hadv]
    exact zipWith_add_getD _ values t (by rw [hlen]; exact ht)
      (by rw [hv]; exact ht)

/-- A two-step segment fixture for the advantage-recursion witness:
rewards 1 and 2, a reset and a termination on the second step. -/
def gaeSeg : Segment :=
  { size := 2, batch_iterations := 1, batch_size := none
    discount_factor := 1/2, trace_decay := 1/3
    data := [⟨0, 0, 0, 1, false, false, 0⟩, ⟨0, 0, 0, 2, true, true, 0⟩]
    advantages := [], returns := [], perms := [] }

/-- The critic values supplied to the witness fixture. -/
def gaeValues : List ℚ := [5, 7]

/-- The critic next-values supplied to the witness fixture. -/
def gaeNextValues : List ℚ := [11, 13]

/-- Witness for C2 at the two-step fixture, at t = 0. -/
theorem segment_compute_returns_gae_witness :
    (gaeValues.length = gaeSeg.data.length) ∧
    (gaeNextValues.length = gaeSeg.data.length) ∧
    (0 < gaeSeg.data.length) ∧
    ((gaeSeg.compute_returns gaeValues gaeNextValues).advantages.length =
        gaeSeg.data.length ∧
      (gaeSeg.compute_returns gaeValues gaeNextValues).advantages.getD 0 0 =
        (gaeSeg.data.getD 0 default).rewards
          + gaeSeg.discount_factor
              * (1 - ind (gaeSeg.data.getD 0 default).terminations)
              * gaeNextValues.getD 0 0
          - gaeValues.getD 0 0
          + gaeSeg.discount_factor * gaeSeg.trace_decay
              * (1 - ind (gaeSeg.data.getD (0 + 1) default).resets)
              * ((gaeSeg.compute_returns gaeValues gaeNextValues).advantages.getD
                  (0 + 1) 0) ∧
      (gaeSeg.compute_returns gaeValues gaeNextValues).returns.getD 0 0 =
        (gaeSeg.compute_returns gaeValues gaeNextValues).advantages.getD 0 0
          + gaeValues.getD 0 0) :=
  ⟨rfl, rfl, by decide,
    segment_compute_returns_gae gaeSeg gaeValues gaeNextValues 0 rfl rfl
      (by decide)⟩

/-! ## The update trace, as the specification describes it -/

/-- The per-timestep events of one update call as the spec describes them:
the store, then a record of the last observations into the observation
normalizer and of the raw rewards into the return normalizer, each only
if that normalizer is present. -/
def specStoreEvents (model : Model) (t : Transition) : List Event :=
  Event.store t ::
    ((if model.observation_normalizer.isSome
        then [Event.recordObs t.observations] else []) ++
     (if model.return_normalizer.isSome
        then [Event.recordRet t.rewards] else []))

/-- The learning-pass events of one update call as the spec describes
them, in order: critic evaluation of values and next-values over the full
stored segment, compute_returns with those values, one actor-updater call
on the full segment, one critic-updater call per mini-batch get yields,
then the observation normalizer's update followed by the return
normalizer's update (each only if present). -/
def specLearningEvents (model : Model) (replay : Segment) : List Event :=
  [Event.evalCritic replay.full_observations replay.full_next_observations,
   Event.computeReturns (replay.full_observations.map model.critic)
     (replay.full_next_observations.map model.critic),
   Event.actorUpdate replay.full_observations replay.full_actions
     (replay.compute_returns (replay.full_observations.map model.critic)
       (replay.full_next_observations.map model.critic)).advantages
     replay.full_log_probs]
  ++ ((replay.compute_returns (replay.full_observations.map model.critic)
        (replay.full_next_observations.map model.critic)).get.map
       fun b => Event.criticUpdate b.1 b.2)
  ++ (if model.observation_normalizer.isSome then [Event.obsNormUpdate] else [])
  ++ (if model.return_normalizer.isSome then [Event.retNormUpdate] else [])

/-- Master characterization of a successful update call: the result state
and the full event trace, for any agent with a cached last step whose
store succeeds. -/
theorem update_ok_spec (agent : A2C) (observations rewards : ℚ)
    (resets terminations : Bool) (last : LastStep) (replay1 : Segment)
    (hlast : agent.last = some last)
    (hstore : agent.replay.store
      (mkStoredTransition last observations rewards resets terminations) =
      .ok replay1) :
    A2C.update agent observations rewards resets terminations =
      .ok
        ({ agent with
            model :=
              { agent.model with
                observation_normalizer :=
                  agent.model.observation_normalizer.map fun nz =>
                    if replay1.ready then (nz.record last.observations).update
                    else nz.record last.observations,
                return_normalizer :=
                  agent.model.return_normalizer.map fun nz =>
                    if replay1.ready then (nz.record rewards).update
                    else nz.record rewards },
            replay :=
              if replay1.ready then
                { (replay1.compute_returns
                    (replay1.full_observations.map agent.model.critic)
                    (replay1.full_next_observations.map agent.model.critic)) with
                  data := [] }
              else replay1 },
          specStoreEvents agent.model
            (mkStoredTransition last observations rewards resets terminations)
          ++ if replay1.ready then specLearningEvents agent.model replay1
             else []) := by
  obtain ⟨⟨ma, mc, mo, mr⟩, rep, au, cu, lastf⟩ := agent
  simp only at hlast hstore
  subst hlast
  simp only [A2C.update, hstore]
  rcases mo with _ | nz₁ <;> rcases mr with _ | nz₂ <;>
    by_cases hr : replay1.ready <;>
    simp only [hr, Bool.false_eq_true, if_true, if_false, ite_true, ite_false] <;>
    rfl

theorem specStoreEvents_no_learn (model : Model) (t : Transition) :
    (specStoreEvents model t).any Event.isLearn = false := by
  unfold specStoreEvents
  split_ifs <;> simp [Event.isLearn]

theorem specLearningEvents_any_learn (model : Model) (replay : Segment) :
    (specLearningEvents model replay).any Event.isLearn = true := by
  simp [specLearningEvents, Event.isLearn]

/-- C1: after a step, an update call whose store succeeds runs a learning
pass iff the replay reports ready after the new transition is stored, and
the full event trace is exactly: the store, the normalizer records, and
(only when ready) the learning pass in the claimed order — critic
evaluation over the full stored segment, compute_returns with those
values, exactly one actor-updater call on the full segment, one
critic-updater call per mini-batch get yields, then the observation
normalizer's update followed by the return normalizer's update (each only
if present). -/
theorem a2c_update_learning_pass_order (agent : A2C) (observations rewards : ℚ)
    (resets terminations : Bool) (last : LastStep) (replay1 : Segment)
    (hlast : agent.last = some last)
    (hstore : agent.replay.store
      (mkStoredTransition last observations rewards resets terminations) =
      .ok replay1) :
    ∃ a : A2C,
      A2C.update agent observations rewards resets terminations =
        .ok (a, specStoreEvents agent.model
            (mkStoredTransition last observations rewards resets terminations)
          ++ if replay1.ready then specLearningEvents agent.model replay1
             else []) ∧
      (specStoreEvents agent.model
          (mkStoredTransition last observations rewards resets terminations)
        ++ if replay1.ready then specLearningEvents agent.model replay1
           else []).any Event.isLearn = replay1.ready := by
  refine ⟨_, update_ok_spec agent observations rewards resets terminations last
    replay1 hlast hstore, ?_⟩
  cases hr : replay1.ready <;>
    simp [hr, specStoreEvents_no_learn, specLearningEvents_any_learn,
      List.any_append]

/-- Witness fixture model: an observation normalizer present, no return
normalizer. -/
def wModel : Model :=
  { actor := fun _ => default_distribution, critic := fun o => o
    observation_normalizer := some ⟨[], []⟩, return_normalizer := none }

/-- Witness fixture replay of capacity 1 (ready after one store). -/
def wSeg : Segment :=
  { size := 1, batch_iterations := 2, batch_size := none
    discount_factor := 1/2, trace_decay := 1/3
    data := [], advantages := [], returns := [], perms := [] }

/-- Witness fixture cached last step. -/
def wLast : LastStep := ⟨2, 3, 4⟩

/-- Witness fixture agent. -/
def wAgent : A2C :=
  { model := wModel, replay := wSeg, actor_updater := default_actor_updater
    critic_updater := default_critic_updater, last := some wLast }

/-- The replay after the witness store. -/
def wSeg1 : Segment :=
  { wSeg with data := [mkStoredTransition wLast 5 6 false false] }

/-- Witness for C1 at the capacity-1 fixture, where the pass triggers. -/
theorem a2c_update_learning_pass_order_witness :
    (wAgent.last = some wLast) ∧
    (wAgent.replay.store (mkStoredTransition wLast 5 6 false false) =
      .ok wSeg1) ∧
    (∃ a : A2C,
      A2C.update wAgent 5 6 false false =
        .ok (a, specStoreEvents wAgent.model
            (mkStoredTransition wLast 5 6 false false)
          ++ if wSeg1.ready then specLearningEvents wAgent.model wSeg1
             else []) ∧
      (specStoreEvents wAgent.model (mkStoredTransition wLast 5 6 false false)
        ++ if wSeg1.ready then specLearningEvents wAgent.model wSeg1
           else []).any Event.isLearn = wSeg1.ready) :=
  ⟨rfl, rfl,
    a2c_update_learning_pass_order wAgent 5 6 false false wLast wSeg1 rfl rfl⟩

/-- C6: in an update call, an absent normalizer makes the corresponding
record and update calls a skipped no-op branch with no error (the update
still succeeds and the absent normalizer stays absent, and no record or
flush event for it appears in the trace); a present normalizer has the
last (pre-step) observations (respectively the raw rewards) recorded
into it, and this record happens before any learning pass: when the pass
runs, the flushed normalizer is exactly the recorded one updated. -/
theorem a2c_update_normalizers_optional (agent : A2C) (observations rewards : ℚ)
    (resets terminations : Bool) (last : LastStep) (replay1 : Segment)
    (hlast : agent.last = some last)
    (hstore : agent.replay.store
      (mkStoredTransition last observations rewards resets terminations) =
      .ok replay1) :
    ∃ (a : A2C) (tr : List Event),
      A2C.update agent observations rewards resets terminations = .ok (a, tr) ∧
      (agent.model.observation_normalizer = none →
        a.model.observation_normalizer = none ∧
        (∀ v : ℚ, Event.recordObs v ∉ tr) ∧ Event.obsNormUpdate ∉ tr) ∧
      (agent.model.return_normalizer = none →
        a.model.return_normalizer = none ∧
        (∀ v : ℚ, Event.recordRet v ∉ tr) ∧ Event.retNormUpdate ∉ tr) ∧
      (∀ nz : Normalizer, agent.model.observation_normalizer = some nz →
        Event.recordObs last.observations ∈ tr ∧
        a.model.observation_normalizer =
          some (if replay1.ready then (nz.record last.observations).update
            else nz.record last.observations)) ∧
      (∀ nz : Normalizer, agent.model.return_normalizer = some nz →
        Event.recordRet rewards ∈ tr ∧
        a.model.return_normalizer =
          some (if replay1.ready then (nz.record rewards).update
            else nz.record rewards)) := by
  refine ⟨_, _, update_ok_spec agent observations rewards resets terminations
    last replay1 hlast hstore, ?_, ?_, ?_, ?_⟩
  · intro h
    refine ⟨by simp [h], ?_, ?_⟩ <;>
      (cases hr : replay1.ready <;>
        rcases hmr : agent.model.return_normalizer with _ | nz <;>
        simp [specStoreEvents, specLearningEvents, h, hr, hmr,
          mkStoredTransition, List.mem_append, List.mem_map])
  · intro h
    refine ⟨by simp [h], ?_, ?_⟩ <;>
      (cases hr : replay1.ready <;>
        rcases hmo : agent.model.observation_normalizer with _ | nz <;>
        simp [specStoreEvents, specLearningEvents, h, hr, hmo,
          mkStoredTransition, List.mem_append, List.mem_map])
  · intro nz h
    refine ⟨?_, by simp [h]⟩
    cases hr : replay1.ready <;>
      simp [specStoreEvents, h, hr, mkStoredTransition, List.mem_append]
  · intro nz h
    refine ⟨?_, by simp [h]⟩
    cases hr : replay1.ready <;>
      simp [specStoreEvents, h, hr, mkStoredTransition, List.mem_append]

/-- Witness for C6 at the capacity-1 fixture: the observation normalizer
is present, the return normalizer absent, and the pass triggers. -/
theorem a2c_update_normalizers_optional_witness :
    (wAgent.last = some wLast) ∧
    (wAgent.replay.store (mkStoredTransition wLast 5 6 false false) =
      .ok wSeg1) ∧
    (∃ (a : A2C) (tr : List Event),
      A2C.update wAgent 5 6 false false = .ok (a, tr) ∧
      (wAgent.model.observation_normalizer = none →
        a.model.observation_normalizer = none ∧
        (∀ v : ℚ, Event.recordObs v ∉ tr) ∧ Event.obsNormUpdate ∉ tr) ∧
      (wAgent.model.return_normalizer = none →
        a.model.return_normalizer = none ∧
        (∀ v : ℚ, Event.recordRet v ∉ tr) ∧ Event.retNormUpdate ∉ tr) ∧
      (∀ nz : Normalizer, wAgent.model.observation_normalizer = some nz →
        Event.recordObs wLast.observations ∈ tr ∧
        a.model.observation_normalizer =
          some (if wSeg1.ready then (nz.record wLast.observations).update
            else nz.record wLast.observations)) ∧
      (∀ nz : Normalizer, wAgent.model.return_normalizer = some nz →
        Event.recordRet 6 ∈ tr ∧
        a.model.return_normalizer =
          some (if wSeg1.ready then (nz.record 6).update
            else nz.record 6))) :=
  ⟨rfl, rfl,
    a2c_update_normalizers_optional wAgent 5 6 false false wLast wSeg1 rfl rfl⟩

theorem critic_map_filter_isStore (l : List (List ℚ × List ℚ)) :
    ((l.map fun b => Event.criticUpdate b.1 b.2).filter Event.isStore) = [] := by
  induction l with
  | nil => rfl
  | cons b bs ih => simp [List.filter_cons, Event.isStore, ih]

theorem specStoreEvents_filter_isStore (model : Model) (t : Transition) :
    (specStoreEvents model t).filter Event.isStore = [Event.store t] := by
  unfold specStoreEvents
  split_ifs <;> simp [Event.isStore, List.filter_append, List.filter_cons]

theorem specLearningEvents_filter_isStore (model : Model) (replay : Segment) :
    (specLearningEvents model replay).filter Event.isStore = [] := by
  unfold specLearningEvents
  split_ifs <;>
    simp [Event.isStore, List.filter_append, List.filter_cons,
      critic_map_filter_isStore]

/-- C3: a step call caches the observations, the sampled actions and
their log-probabilities as last-step state, and the next update call
stores into the buffer exactly one transition pairing that cached data
(as observations, actions, log_probs) with the update call's arguments
(as next_observations, rewards, resets, terminations): the trace holds
exactly one store event, carrying that transition, and the buffer grows
by exactly that transition. -/
theorem a2c_step_then_update_stores_pair (agent : A2C) (o o2 r : ℚ)
    (res term : Bool) (replay1 : Segment)
    (hstore : agent.replay.store
      (mkStoredTransition
        ⟨o, (A2C._step agent.model o).1, (A2C._step agent.model o).2⟩
        o2 r res term) = .ok replay1) :
    (A2C.step agent o).2.last =
      some ⟨o, (A2C._step agent.model o).1, (A2C._step agent.model o).2⟩ ∧
    ∃ (a : A2C) (tr : List Event),
      A2C.update (A2C.step agent o).2 o2 r res term = .ok (a, tr) ∧
      tr.filter Event.isStore =
        [Event.store (mkStoredTransition
          ⟨o, (A2C._step agent.model o).1, (A2C._step agent.model o).2⟩
          o2 r res term)] ∧
      replay1.data = agent.replay.data ++
        [mkStoredTransition
          ⟨o, (A2C._step agent.model o).1, (A2C._step agent.model o).2⟩
          o2 r res term] := by
  refine ⟨rfl, _, _,
    update_ok_spec (A2C.step agent o).2 o2 r res term
      ⟨o, (A2C._step agent.model o).1, (A2C._step agent.model o).2⟩
      replay1 rfl hstore, ?_, store_ok_data hstore⟩
  cases hr : replay1.ready <;>
    simp [hr, List.filter_append, specStoreEvents_filter_isStore,
      specLearningEvents_filter_isStore]

/-- A capacity-2 fixture replay (not ready after one store). -/
def wSeg2 : Segment :=
  { size := 2, batch_iterations := 2, batch_size := none
    discount_factor := 1/2, trace_decay := 1/3
    data := [], advantages := [], returns := [], perms := [] }

/-- A fixture agent with no cached step yet and the capacity-2 replay. -/
def wAgent2 : A2C :=
  { model := wModel, replay := wSeg2, actor_updater := default_actor_updater
    critic_updater := default_critic_updater, last := none }

/-- The capacity-2 fixture replay after storing the paired transition. -/
def wSeg2' : Segment :=
  { wSeg2 with
    data := [mkStoredTransition
      ⟨1, (A2C._step wModel 1).1, (A2C._step wModel 1).2⟩ 5 6 false false] }

/-- Witness for C3: one step at observation 1, then one update. -/
theorem a2c_step_then_update_stores_pair_witness :
    (wAgent2.replay.store
      (mkStoredTransition
        ⟨1, (A2C._step wAgent2.model 1).1, (A2C._step wAgent2.model 1).2⟩
        5 6 false false) = .ok wSeg2') ∧
    ((A2C.step wAgent2 1).2.last =
      some ⟨1, (A2C._step wAgent2.model 1).1, (A2C._step wAgent2.model 1).2⟩ ∧
    ∃ (a : A2C) (tr : List Event),
      A2C.update (A2C.step wAgent2 1).2 5 6 false false = .ok (a, tr) ∧
      tr.filter Event.isStore =
        [Event.store (mkStoredTransition
          ⟨1, (A2C._step wAgent2.model 1).1, (A2C._step wAgent2.model 1).2⟩
          5 6 false false)] ∧
      wSeg2'.data = wAgent2.replay.data ++
        [mkStoredTransition
          ⟨1, (A2C._step wAgent2.model 1).1, (A2C._step wAgent2.model 1).2⟩
          5 6 false false]) :=
  ⟨rfl, a2c_step_then_update_stores_pair wAgent2 1 5 6 false false wSeg2' rfl⟩

/-- C5: for every step call, the log-probability the agent caches (and
that the next successful update stores into the buffer) is the sum over
the last (action-dimension) axis of the per-dimension log-probability
vector the distribution produced, under whichever of the two operations
was used. -/
theorem a2c_step_sums_log_probs (agent : A2C) (o : ℚ) :
    ∃ v : List ℚ,
      ((agent.model.actor o).sample_with_log_prob =
          some ((A2C._step agent.model o).1, v) ∨
        ((agent.model.actor o).sample_with_log_prob = none ∧
          v = (agent.model.actor o).log_prob (agent.model.actor o).sample)) ∧
      (A2C.step agent o).2.last =
        some ⟨o, (A2C._step agent.model o).1, v.sum⟩ ∧
      ∀ (o2 r : ℚ) (res term : Bool) (replay1 : Segment),
        (A2C.step agent o).2.replay.store
          (mkStoredTransition ⟨o, (A2C._step agent.model o).1, v.sum⟩
            o2 r res term) = .ok replay1 →
        ∃ (a : A2C) (tr : List Event),
          A2C.update (A2C.step agent o).2 o2 r res term = .ok (a, tr) ∧
          Event.store (mkStoredTransition
            ⟨o, (A2C._step agent.model o).1, v.sum⟩ o2 r res term) ∈ tr := by
  rcases hs : (agent.model.actor o).sample_with_log_prob with _ | al
  · have h1 : A2C._step agent.model o =
        ((agent.model.actor o).sample,
         ((agent.model.actor o).log_prob (agent.model.actor o).sample).sum) := by
      unfold A2C._step
      rw [hs]
    have h2 : (A2C.step agent o).2.last =
        some ⟨o, (A2C._step agent.model o).1,
          ((agent.model.actor o).log_prob (agent.model.actor o).sample).sum⟩ := by
      simp only [A2C.step, h1]
    refine ⟨(agent.model.actor o).log_prob (agent.model.actor o).sample,
      Or.inr ⟨rfl, rfl⟩, h2, ?_⟩
    intro o2 r res term replay1 hstore
    refine ⟨_, _,
      update_ok_spec (A2C.step agent o).2 o2 r res term
        ⟨o, (A2C._step agent.model o).1,
          ((agent.model.actor o).log_prob (agent.model.actor o).sample).sum⟩
        replay1 h2 hstore, ?_⟩
    simp [specStoreEvents]
  · have h1 : A2C._step agent.model o = (al.1, al.2.sum) := by
      unfold A2C._step
      rw [hs]
    have h2 : (A2C.step agent o).2.last =
        some ⟨o, (A2C._step agent.model o).1, al.2.sum⟩ := by
      simp only [A2C.step, h1]
    refine ⟨al.2, Or.inl (by rw [h1]), h2, ?_⟩
    intro o2 r res term replay1 hstore
    refine ⟨_, _,
      update_ok_spec (A2C.step agent o).2 o2 r res term
        ⟨o, (A2C._step agent.model o).1, al.2.sum⟩ replay1 h2 hstore, ?_⟩
    simp [specStoreEvents]
